import Mathlib

/-!
Verification of the authentication engine of the `testing` repository
(`src/utils/authentication/senpaAuth.js` and
`src/utils/authentication/tricksplit.js`).

JavaScript 32-bit values are represented by their bit patterns as `Nat`
(`< 2 ^ 32`); where the sign of a value is observable (storage of
`solvedSecret`, the Variant B `encryptionKey`), the signed reinterpretation
is made explicit through `asInt32`.  Strings are lists of UTF-16 code
units.  Buffers are lists of byte values.
-/

attribute [local semireducible] Rat.add Rat.sub Rat.mul Rat.inv Rat.ofScientific

/-- Low 32 bits of a natural number: the bit pattern JS keeps after any
32-bit coercion. -/
def u32 (n : Nat) : Nat := n % 4294967296

/-- Signed reinterpretation of a 32-bit bit pattern, as produced by the JS
coercion `x | 0` (`to32BitSignedInt` in senpaAuth.js). -/
def asInt32 (b : Nat) : Int :=
  if b % 4294967296 < 2147483648 then ((b % 4294967296 : Nat) : Int)
  else ((b % 4294967296 : Nat) : Int) - 4294967296

/-- Bit pattern of an integer reduced to 32 bits, as produced by the JS
coercion `x >>> 0` (`to32BitUnsignedInt`). -/
def bitsOfInt32 (x : Int) : Nat := (x.emod 4294967296).toNat

/-- Little-endian decoding of a byte list into 32-bit words, modelling
`new Uint32Array(packet)` over a 16-byte buffer. -/
def bytesToWords : List Nat → List Nat
  | b0 :: b1 :: b2 :: b3 :: rest =>
      (b0 + b1 * 256 + b2 * 65536 + b3 * 16777216) :: bytesToWords rest
  | _ => []

/-- Loop body of `processDecryptionKeys` (senpaAuth.js lines 155-158),
translated exactly: the loop variable starts at 1, is incremented once
inside the body before the byte is read, and once more by the `for`
update, so only every second offset of the 65-byte packet is consumed. -/
def processDecryptionKeysLoop (keys : List Nat) : Nat → Nat → List Nat
  | 0, _ => []
  | fuel + 1, index =>
      if index < 65 then
        ((keys.getD (index + 1) 0) ^^^ 0xb2) ::
          processDecryptionKeysLoop keys fuel (index + 1 + 1)
      else []

/-- `processDecryptionKeys` (senpaAuth.js lines 152-161): derives the
inbound substitution table from a 65-byte server packet.  The fuel 65
bounds the loop, which exits through its `index < 65` test after at most
32 iterations. -/
def processDecryptionKeys (keys : List Nat) : List Nat :=
  processDecryptionKeysLoop keys 65 1

/-- Substitution table the spec sentence for claim C2 describes: 64
entries, entry `i` being the byte at offset `i + 1` XOR `0xB2`.  Stated
from the claim's words, for comparison with `processDecryptionKeys`. -/
def claimedDecryptionKeys (keys : List Nat) : List Nat :=
  (List.range 64).map (fun i => (keys.getD (i + 1) 0) ^^^ 0xb2)

/-- Result record of `processServerKeys` (senpaAuth.js lines 104-137):
the derived seed, the 4-word reply buffer, the resulting 8-word
`encryptionKeys` array and the signed `solvedSecret`. -/
structure ServerKeysResult where
  primarySeed : Nat
  authBuffer : List Nat
  newEncryptionKeys : List Nat
  solvedSecret : Int
deriving DecidableEq

/-- `processServerKeys` (senpaAuth.js lines 104-137) as a pure function of
the current 8-word `encryptionKeys` array and the four words of the
16-byte server packet.  All XORs act on 32-bit bit patterns; `>>>` is the
unsigned right shift. -/
def processServerKeys (encryptionKeys packet : List Nat) : ServerKeysResult :=
  let k0 := u32 (encryptionKeys.getD 0 0)
  let k1 := u32 (encryptionKeys.getD 1 0)
  let k2 := u32 (encryptionKeys.getD 2 0)
  let k3 := u32 (encryptionKeys.getD 3 0)
  let primarySeed := k0 ^^^ k1
  let firstAuthValue := (u32 (packet.getD 0 0) ^^^ (primarySeed >>> 1)) ^^^ 420
  let secondAuthValue := (u32 (packet.getD 1 0) ^^^ (primarySeed >>> 2)) ^^^ 69
  let thirdAuthValue := (u32 (packet.getD 2 0) ^^^ (primarySeed >>> 3)) ^^^ 420
  let fourthAuthValue := (u32 (packet.getD 3 0) ^^^ (primarySeed >>> 4)) ^^^ 69
  { primarySeed := primarySeed
    authBuffer := [firstAuthValue, secondAuthValue, thirdAuthValue, fourthAuthValue]
    newEncryptionKeys := [k0, k1, k2, k3,
      firstAuthValue, secondAuthValue, thirdAuthValue, fourthAuthValue]
    solvedSecret := asInt32 (thirdAuthValue ^^^ k1) }

/-- Session state of a Variant A `SenpaWasmInstance` as far as inbound
message processing observes it: the key words, the decryption-key table
(`NaN` until the 65-byte packet arrives, modelled as `none`), the solved
secret and the cipher flag. -/
structure SenpaState where
  encryptionKeys : List Nat
  decryptionKeys : Option (List Nat)
  solvedSecret : Option Int
  encryptionEnabled : Bool
deriving DecidableEq

/-- Fresh session state (senpaAuth.js constructor, lines 30-40) with the
four random key words already stored by `initializeAuthentication`. -/
def initSenpaState (keys : List Nat) : SenpaState :=
  { encryptionKeys := keys, decryptionKeys := none, solvedSecret := none
    encryptionEnabled := false }

/-- JS guard `this.decryptionKeys !== NaN` (senpaAuth.js line 132).  In
JavaScript `x !== NaN` evaluates to `true` for every `x`, because `NaN`
compares unequal to every value including itself; the guard therefore
passes even while `decryptionKeys` still holds its initial `NaN`. -/
def jsStrictNeqNaN (_keys : Option (List Nat)) : Bool := true

/-- State effect of `processServerKeys` on the session (senpaAuth.js
lines 121-134): stores the derived words, the solved secret, and runs the
cipher-activation guard. -/
def senpaServerKeysStep (st : SenpaState) (packet : List Nat) : SenpaState :=
  let r := processServerKeys st.encryptionKeys packet
  { st with
    encryptionKeys := r.newEncryptionKeys
    solvedSecret := some r.solvedSecret
    encryptionEnabled :=
      if jsStrictNeqNaN st.decryptionKeys then true else st.encryptionEnabled }

/-- Inbound message dispatch of `_alloc` event type 2 (senpaAuth.js lines
522-547), restricted to its effect on session state: while the cipher is
off, a 65-byte frame installs the decryption table and a 16-byte frame
runs `processServerKeys`; any other frame leaves the state unchanged. -/
def senpaOnMessage (st : SenpaState) (data : List Nat) : SenpaState :=
  if st.encryptionEnabled then st
  else if data.length = 65 then
    { st with decryptionKeys := some (processDecryptionKeys data) }
  else if data.length = 16 then
    senpaServerKeysStep st (bytesToWords data)
  else st

/-- Delivery of a sequence of inbound messages to a Variant A session. -/
def senpaOnMessages (st : SenpaState) (msgs : List (List Nat)) : SenpaState :=
  msgs.foldl senpaOnMessage st

/-- Multiplier of `Lcg64Bit` (senpaAuth.js line 221). -/
def lcgMultiplier : Nat := 6364136223846793005

/-- One call of the closure returned by `Lcg64Bit` (senpaAuth.js lines
225-229): update the unbounded-precision state and emit
`(state >> 33) mod modulo`. -/
def computeNextLCGValue (modulo state : Nat) : Nat × Nat :=
  let updatedState := state * lcgMultiplier + 1
  (updatedState, (updatedState >>> 33) % modulo)

/-- Outputs of `n` successive calls of the generator, threading the
internal state exactly as the closure does. -/
def lcgRunOutputs (modulo : Nat) : Nat → Nat → List Nat
  | 0, _ => []
  | n + 1, state =>
      let r := computeNextLCGValue modulo state
      r.2 :: lcgRunOutputs modulo n r.1

/-- Output stream of a generator freshly created by `Lcg64Bit modulo`:
the internal state starts at 0. -/
def lcg64BitOutputs (modulo n : Nat) : List Nat :=
  lcgRunOutputs modulo n 0

/-- Internal LCG state after `n` calls, written as a closed recursion on
the call count (the claim's pure function of `n`). -/
def lcgStateAfter : Nat → Nat
  | 0 => 0
  | n + 1 => lcgStateAfter n * lcgMultiplier + 1

/-- Value the claim predicts for the `n`-th output (0-based): a pure
function of the call count. -/
def lcgNthOutput (modulo n : Nat) : Nat :=
  (lcgStateAfter (n + 1) >>> 33) % modulo

/-- Clamped Unix-seconds timestamp of `#generateRandomSeed`
(tricksplit.js lines 51-63): floor when the magnitude is below `2^31`,
otherwise `INT32_MIN`.  The raw seconds value is modelled as a rational. -/
def tsGenerateRandomSeed (t : ℚ) : Int :=
  if |t| < 2147483648 then ⌊t⌋ else -2147483648

/-- Division of a signed 32-bit quantity by a power of two as JS performs
it in `first`: an exact real division whose result the subsequent XOR
truncates toward zero (`ToInt32`).  `Int.tdiv` is T-division, i.e.
truncation toward zero. -/
def truncDivTowardZero (x : Int) (d : Nat) : Int := Int.tdiv x d

/-- `first` (tricksplit.js lines 360-373) as a pure function of the raw
Unix-seconds value and the two random 32-bit words: the three packet
words (unsigned bit patterns, as stored in the `Uint32Array`) and the
signed `encryptionKey`. -/
def tricksplitFirst (t : ℚ) (K0 K1 : Nat) : (Nat × Nat × Nat) × Int :=
  let ts := tsGenerateRandomSeed t
  let tsBits := bitsOfInt32 ts
  let x := tsBits ^^^ 0xff1c1a1
  let xS := asInt32 x
  let d2 := bitsOfInt32 (truncDivTowardZero xS 2)
  let d4 := bitsOfInt32 (truncDivTowardZero xS 4)
  let p0 := tsBits ^^^ 0xff1d296
  let p1 := (u32 K0 ^^^ d2) ^^^ 0x1a4
  let p2 := (u32 K1 ^^^ d4) ^^^ 0x45
  ((p0, p1, p2), asInt32 (u32 K1 ^^^ u32 K0))

/-- The handshake packet exactly as the spec sentence for claim C6 writes
it: `p[1] = K0 ^ (((timestamp ^ 0x0FF1C1A1) / 2) ^ 0x1A4)` and
`p[2] = K1 ^ (((timestamp ^ 0x0FF1C1A1) / 4) ^ 0x45)`, with real-number
division truncated to 32 bits by the XOR, the timestamp clamped to the
signed 32-bit range with `INT32_MIN` on overflow, and
`encryptionKey = K1 ^ K0`.  Stated from the claim's words, for comparison
with `tricksplitFirst`. -/
def tricksplitFirstClaim (t : ℚ) (K0 K1 : Nat) : (Nat × Nat × Nat) × Int :=
  let ts := if |t| < 2147483648 then ⌊t⌋ else (-2147483648 : Int)
  let tsBits := bitsOfInt32 ts
  let x := tsBits ^^^ 0xff1c1a1
  let xS := asInt32 x
  let d2 := bitsOfInt32 (truncDivTowardZero xS 2)
  let d4 := bitsOfInt32 (truncDivTowardZero xS 4)
  let p0 := tsBits ^^^ 0xff1d296
  let p1 := u32 K0 ^^^ (d2 ^^^ 0x1a4)
  let p2 := u32 K1 ^^^ (d4 ^^^ 0x45)
  ((p0, p1, p2), asInt32 (u32 K1 ^^^ u32 K0))

/-- Per-byte loop of `encryptMessage` (senpaAuth.js lines 177-194): the
key index is reset to 0 exactly when it equals the key-array length, the
plaintext byte is XORed with the selected key byte, and the index then
advances by one.  The `% 256` models the store into the `Uint8Array`
output packet. -/
def encryptMessageLoop (keys : List Nat) (mt : Nat) : List Nat → List Nat
  | [] => []
  | b :: rest =>
      let mt' := if keys.length = mt then 0 else mt
      ((b ^^^ keys.getD mt' 0) % 256) :: encryptMessageLoop keys (mt' + 1) rest

/-- `encryptMessage` (senpaAuth.js lines 163-197) with the cipher enabled,
as a function of the installed key bytes, the LCG output `mtStart` chosen
for this packet, and the plaintext bytes: the first output byte is the
LCG index (stored into a `Uint8Array`, hence `% 256`), followed by the
XORed payload. -/
def encryptMessage (keys : List Nat) (mtStart : Nat) (input : List Nat) : List Nat :=
  (mtStart % 256) :: encryptMessageLoop keys mtStart input

/-- In-place loop of `decryptMessage` (senpaAuth.js lines 206-214),
modelled by explicit buffer updates: position `i` of the buffer is
overwritten with the decrypted byte while positions below `i` keep
whatever is already there.  The key index is forced to 0 when it equals
the decryption-table length and advances by one each step. -/
def decryptMessageLoop (keys : List Nat) : Nat → Nat → List Nat → Nat → List Nat
  | 0, _, buf, _ => buf
  | fuel + 1, idx, buf, i =>
      if i < buf.length then
        decryptMessageLoop keys fuel ((if idx ≠ keys.length then idx else 0) + 1)
          (buf.set i
            ((keys.getD (if idx ≠ keys.length then idx else 0) 0 ^^^ buf.getD i 0) % 256))
          (i + 1)
      else buf

/-- `decryptMessage` (senpaAuth.js lines 199-217) with the cipher
enabled: the starting key index is byte 0 of the ciphertext, the loop
overwrites bytes 1 onward in place, and the function returns
`slice(1)` of the mutated buffer.  The result pairs the final contents of
the caller's buffer with the returned fresh copy.  The fuel
`buf.length` covers every iteration of the loop, which exits through its
`i < buf.length` test. -/
def decryptMessage (keys : List Nat) (buf : List Nat) : List Nat × List Nat :=
  let final := decryptMessageLoop keys buf.length (buf.getD 0 0) buf 1
  (final, final.drop 1)

/-- Pure form of the Variant A receive-path keystream: the decrypted
bytes produced from a starting key index and the ciphertext payload
(spec section 4.4, receive path). -/
def decryptStream (keys : List Nat) : Nat → List Nat → List Nat
  | _, [] => []
  | idx, c :: rest =>
      let keyIndexToUse := if idx ≠ keys.length then idx else 0
      ((keys.getD keyIndexToUse 0 ^^^ c) % 256) ::
        decryptStream keys (keyIndexToUse + 1) rest

/-!
Shallow embedding of `processVMBytecode`.  The two interpreters
(senpaAuth.js lines 232-512 and tricksplit.js lines 76-358) are textually
identical except that the tricksplit variant's opcode 67 first evaluates
the discarded member access `popTwo[popOne]`; the shared step function
below therefore takes a `deref67` flag that enables exactly that extra
access.  JS numbers are modelled as exact rationals together with NaN,
negative zero and the signed infinities: every finite number these
interpreters build is obtained from integer arithmetic, `ToInt32`
truncations or decimal-literal parsing, so no IEEE rounding is modelled
(number-to-string keeps plain positional notation, where real JS would
switch to exponent notation beyond 1e21).  Strings are lists of UTF-16
code units; arrays live on an explicit heap so aliasing and in-place
mutation behave as in JS; stored `undefined` array elements are treated
like holes by `indexOf`.  The host behaviour of `eval` (and of the
functions it returns) is outside the repository and is supplied by an
oracle parameter shared by both interpreters.
-/

/-- JS number as the interpreters can produce it: an exact rational,
negative zero, NaN, or a signed infinity. -/
inductive JSNum where
  | rat (q : ℚ)
  | negZero
  | nan
  | inf
  | negInf
deriving DecidableEq

/-- Rational value of a finite JS number (negative zero counts as 0);
meaningless on NaN and the infinities. -/
def JSNum.q : JSNum → ℚ
  | .rat v => v
  | _ => 0

/-- JS addition on numbers (`+` after both operands became numeric). -/
def jsNumAdd : JSNum → JSNum → JSNum
  | .nan, _ => .nan
  | _, .nan => .nan
  | .inf, .negInf => .nan
  | .negInf, .inf => .nan
  | .inf, _ => .inf
  | _, .inf => .inf
  | .negInf, _ => .negInf
  | _, .negInf => .negInf
  | .negZero, .negZero => .negZero
  | .negZero, .rat b => .rat b
  | .rat a, .negZero => .rat a
  | .rat a, .rat b => .rat (a + b)

/-- JS numeric negation. -/
def jsNumNeg : JSNum → JSNum
  | .rat v => if v = 0 then .negZero else .rat (-v)
  | .negZero => .rat 0
  | .nan => .nan
  | .inf => .negInf
  | .negInf => .inf

/-- JS subtraction, which is addition of the negation. -/
def jsNumSub (a b : JSNum) : JSNum := jsNumAdd a (jsNumNeg b)

/-- JS division on numbers.  Inside the interpreters the divisor is
always a zero (opcode 19 divides only under its inverted guard), so the
finite/finite branch - exact here, rounded in IEEE - is unreachable. -/
def jsNumDiv : JSNum → JSNum → JSNum
  | .nan, _ => .nan
  | _, .nan => .nan
  | .inf, .inf => .nan
  | .inf, .negInf => .nan
  | .negInf, .inf => .nan
  | .negInf, .negInf => .nan
  | .inf, .rat b => if b < 0 then .negInf else .inf
  | .inf, .negZero => .negInf
  | .negInf, .rat b => if b < 0 then .inf else .negInf
  | .negInf, .negZero => .inf
  | .rat a, .inf => if a < 0 then .negZero else .rat 0
  | .negZero, .inf => .negZero
  | .rat a, .negInf => if a < 0 then .rat 0 else .negZero
  | .negZero, .negInf => .rat 0
  | .rat a, .rat b =>
      if b = 0 then (if a = 0 then .nan else if a < 0 then .negInf else .inf)
      else .rat (a / b)
  | .rat a, .negZero => if a = 0 then .nan else if a < 0 then .inf else .negInf
  | .negZero, .rat b => if b = 0 then .nan else if b < 0 then .rat 0 else .negZero
  | .negZero, .negZero => .nan

/-- Truncation of a rational toward zero. -/
def qTrunc (v : ℚ) : Int := if 0 ≤ v then ⌊v⌋ else ⌈v⌉

/-- `ToInt32` of a JS number, as a 32-bit bit pattern: NaN, infinities
and both zeros give 0; finite values truncate toward zero and wrap. -/
def jsNumToInt32Bits : JSNum → Nat
  | .rat v => ((qTrunc v).emod 4294967296).toNat
  | _ => 0

/-- JS number carrying the signed value of a 32-bit bit pattern (the
result of `^`, `&`, `|`, shifts and `Math.imul`). -/
def jsNumOfInt32Bits (b : Nat) : JSNum := .rat ((asInt32 b : Int) : ℚ)

/-- Numeric `<` on JS numbers (false whenever NaN is involved). -/
def jsNumLt : JSNum → JSNum → Bool
  | .nan, _ => false
  | _, .nan => false
  | .inf, _ => false
  | _, .inf => true
  | .negInf, .negInf => false
  | .negInf, _ => true
  | _, .negInf => false
  | a, b => decide (a.q < b.q)

/-- Strict (`===`) equality on JS numbers: NaN equals nothing, the two
zeros are equal. -/
def jsNumStrictEq : JSNum → JSNum → Bool
  | .nan, _ => false
  | _, .nan => false
  | .inf, .inf => true
  | .negInf, .negInf => true
  | .inf, _ => false
  | _, .inf => false
  | .negInf, _ => false
  | _, .negInf => false
  | a, b => decide (a.q = b.q)

/-- True on a JS number equal to zero (either sign). -/
def jsNumIsZero : JSNum → Bool
  | .rat v => decide (v = 0)
  | .negZero => true
  | _ => false

/-- Code units of the text `eval`. -/
def evalChars : List Nat := [101, 118, 97, 108]

/-- Code units of the text `toString`. -/
def toStringChars : List Nat := [116, 111, 83, 116, 114, 105, 110, 103]

/-- Code units of the text `indexOf`. -/
def indexOfChars : List Nat := [105, 110, 100, 101, 120, 79, 102]

/-- Code units of the text `getAttribute`. -/
def getAttributeChars : List Nat :=
  [103, 101, 116, 65, 116, 116, 114, 105, 98, 117, 116, 101]

/-- Code units of the text `CanvasCaptureMediaStreamTrack`. -/
def canvasTrackChars : List Nat :=
  [67, 97, 110, 118, 97, 115, 67, 97, 112, 116, 117, 114, 101, 77, 101, 100,
   105, 97, 83, 116, 114, 101, 97, 109, 84, 114, 97, 99, 107]

/-- Code units of the text `contextBufferFactory`. -/
def contextBufferFactoryChars : List Nat :=
  [99, 111, 110, 116, 101, 120, 116, 66, 117, 102, 102, 101, 114, 70, 97, 99,
   116, 111, 114, 121]

/-- Code units of the text `null`. -/
def nullChars : List Nat := [110, 117, 108, 108]

/-- Code units of the text `undefined`. -/
def undefChars : List Nat := [117, 110, 100, 101, 102, 105, 110, 101, 100]

/-- Code units of the text `length`. -/
def lengthChars : List Nat := [108, 101, 110, 103, 116, 104]

/-- Code units of the text `[object Object]`. -/
def objObjectChars : List Nat :=
  [91, 111, 98, 106, 101, 99, 116, 32, 79, 98, 106, 101, 99, 116, 93]

/-- Code units of the text `Infinity`. -/
def infinityChars : List Nat := [73, 110, 102, 105, 110, 105, 116, 121]

/-- Code units of the text `NaN`. -/
def nanChars : List Nat := [78, 97, 78]

/-- Code units of the source text `eval` stringifies to (a
native-function body with bracketed native-code marker). -/
def fnEvalSrc : List Nat :=
  [102, 117, 110, 99, 116, 105, 111, 110, 32, 101, 118, 97, 108, 40, 41, 32,
   123, 32, 91, 110, 97, 116, 105, 118, 101, 32, 99, 111, 100, 101, 93, 32, 125]

/-- Code units of the source text `toString` stringifies to. -/
def fnToStringSrc : List Nat :=
  [102, 117, 110, 99, 116, 105, 111, 110, 32, 116, 111, 83, 116, 114, 105,
   110, 103, 40, 41, 32, 123, 32, 91, 110, 97, 116, 105, 118, 101, 32, 99,
   111, 100, 101, 93, 32, 125]

/-- Code units of the source text `Array.prototype.indexOf` stringifies
to. -/
def fnIndexOfSrc : List Nat :=
  [102, 117, 110, 99, 116, 105, 111, 110, 32, 105, 110, 100, 101, 120, 79,
   102, 40, 41, 32, 123, 32, 91, 110, 97, 116, 105, 118, 101, 32, 99, 111,
   100, 101, 93, 32, 125]

/-- Code units of the text `Pattern not found`. -/
def patternNotFoundChars : List Nat :=
  [80, 97, 116, 116, 101, 114, 110, 32, 110, 111, 116, 32, 102, 111, 117,
   110, 100]

/-- Code units of the text `=function(`. -/
def eqFunctionParenChars : List Nat :=
  [61, 102, 117, 110, 99, 116, 105, 111, 110, 40]

/-- Code units of the text `(function` followed by a space. -/
def openFunctionChars : List Nat :=
  [40, 102, 117, 110, 99, 116, 105, 111, 110, 32]

/-- Code units of the text `[object Undefined]`. -/
def tagUndefinedChars : List Nat :=
  [91, 111, 98, 106, 101, 99, 116, 32, 85, 110, 100, 101, 102, 105, 110,
   101, 100, 93]

/-- Code units of the text `[object Null]`. -/
def tagNullChars : List Nat :=
  [91, 111, 98, 106, 101, 99, 116, 32, 78, 117, 108, 108, 93]

/-- Code units of the text `[object Number]`. -/
def tagNumberChars : List Nat :=
  [91, 111, 98, 106, 101, 99, 116, 32, 78, 117, 109, 98, 101, 114, 93]

/-- Code units of the text `[object String]`. -/
def tagStringChars : List Nat :=
  [91, 111, 98, 106, 101, 99, 116, 32, 83, 116, 114, 105, 110, 103, 93]

/-- Code units of the text `[object Array]`. -/
def tagArrayChars : List Nat :=
  [91, 111, 98, 106, 101, 99, 116, 32, 65, 114, 114, 97, 121, 93]

/-- Code units of the text `[object Function]`. -/
def tagFunctionChars : List Nat :=
  [91, 111, 98, 106, 101, 99, 116, 32, 70, 117, 110, 99, 116, 105, 111, 110, 93]

/-- Decimal digit string (UTF-16 units) of a natural number. -/
def natToDecimal (n : Nat) : List Nat := (Nat.toDigits 10 n).map Char.toNat

/-- Smallest exponent `k ≤ 64` with `den` dividing `10 ^ k`, when one
exists (it does for every denominator a decimal literal can produce). -/
def decExponent (den : Nat) : Option Nat :=
  (List.range 65).find? (fun k => 10 ^ k % den = 0)

/-- JS `ToString` of a number, in code units.  Finite values are printed
in plain positional decimal; the exponent notation real JS uses beyond
1e21 (and the double rounding behind it) is not modelled, and a
denominator no power of ten cancels - unreachable from the interpreters -
prints its 64-digit truncation. -/
def jsNumToChars : JSNum → List Nat
  | .nan => nanChars
  | .inf => infinityChars
  | .negInf => 45 :: infinityChars
  | .negZero => [48]
  | .rat v =>
      if v = 0 then [48]
      else
        let sign : List Nat := if v < 0 then [45] else []
        let num := v.num.natAbs
        let den := v.den
        let k := (decExponent den).getD 64
        let scaled := num * 10 ^ k / den
        let ip := scaled / 10 ^ k
        let fp := scaled % 10 ^ k
        if fp = 0 then sign ++ natToDecimal ip
        else
          let fracDigits := (natToDecimal (10 ^ k + fp)).drop 1
          let fracTrimmed := (fracDigits.reverse.dropWhile (fun c => c == 48)).reverse
          sign ++ natToDecimal ip ++ [46] ++ fracTrimmed

/-- JS whitespace for `ToNumber` trimming. -/
def jsIsWhite (c : Nat) : Bool :=
  c == 32 || c == 9 || c == 10 || c == 11 || c == 12 || c == 13 || c == 160 ||
    c == 8232 || c == 8233 || c == 65279

/-- Decimal digit value of a code unit. -/
def digitVal (c : Nat) : Option Nat :=
  if 48 ≤ c ∧ c ≤ 57 then some (c - 48) else none

/-- Hexadecimal digit value of a code unit. -/
def hexVal (c : Nat) : Option Nat :=
  if 48 ≤ c ∧ c ≤ 57 then some (c - 48)
  else if 97 ≤ c ∧ c ≤ 102 then some (c - 87)
  else if 65 ≤ c ∧ c ≤ 70 then some (c - 55)
  else none

/-- Octal digit value of a code unit. -/
def octVal (c : Nat) : Option Nat :=
  if 48 ≤ c ∧ c ≤ 55 then some (c - 48) else none

/-- Binary digit value of a code unit. -/
def binVal (c : Nat) : Option Nat :=
  if c = 48 ∨ c = 49 then some (c - 48) else none

/-- Greedy digit run: accumulated value, digit count and the remaining
input. -/
def parseDigitsCnt (dv : Nat → Option Nat) (base : Nat) :
    List Nat → Nat → Nat → (Nat × Nat × List Nat)
  | [], acc, cnt => (acc, cnt, [])
  | c :: rest, acc, cnt =>
      match dv c with
      | some d => parseDigitsCnt dv base rest (acc * base + d) (cnt + 1)
      | none => (acc, cnt, c :: rest)

/-- Unsigned decimal literal with optional fraction and exponent,
yielding its exact rational value and the remaining input. -/
def parseUnsignedDecimal (s : List Nat) : Option (ℚ × List Nat) :=
  let r1 := parseDigitsCnt digitVal 10 s 0 0
  let r2 :=
    match r1.2.2 with
    | 46 :: rest => parseDigitsCnt digitVal 10 rest 0 0
    | _ => (0, 0, r1.2.2)
  if r1.2.1 = 0 ∧ r2.2.1 = 0 then none
  else
    let base : ℚ := (r1.1 : ℚ) + (r2.1 : ℚ) / ((10 : ℚ) ^ r2.2.1)
    match r2.2.2 with
    | 101 :: 43 :: r3 =>
        let re := parseDigitsCnt digitVal 10 r3 0 0
        if re.2.1 = 0 then none else some (base * 10 ^ re.1, re.2.2)
    | 101 :: 45 :: r3 =>
        let re := parseDigitsCnt digitVal 10 r3 0 0
        if re.2.1 = 0 then none else some (base / 10 ^ re.1, re.2.2)
    | 101 :: r3 =>
        let re := parseDigitsCnt digitVal 10 r3 0 0
        if re.2.1 = 0 then none else some (base * 10 ^ re.1, re.2.2)
    | 69 :: 43 :: r3 =>
        let re := parseDigitsCnt digitVal 10 r3 0 0
        if re.2.1 = 0 then none else some (base * 10 ^ re.1, re.2.2)
    | 69 :: 45 :: r3 =>
        let re := parseDigitsCnt digitVal 10 r3 0 0
        if re.2.1 = 0 then none else some (base / 10 ^ re.1, re.2.2)
    | 69 :: r3 =>
        let re := parseDigitsCnt digitVal 10 r3 0 0
        if re.2.1 = 0 then none else some (base * 10 ^ re.1, re.2.2)
    | other => some (base, other)

/-- Radix-prefixed integer literal (after `0x`, `0o`, `0b`): the whole
remaining input must be digits of the radix. -/
def parseRadix (dv : Nat → Option Nat) (base : Nat) (s : List Nat) : JSNum :=
  let r := parseDigitsCnt dv base s 0 0
  if r.2.1 = 0 ∨ r.2.2 ≠ [] then .nan else .rat r.1

/-- Signed decimal part of `ToNumber` on a trimmed string (also accepts
`Infinity`); the whole input must be consumed. -/
def parseSignedDecimal (t : List Nat) : JSNum :=
  let core : List Nat → Bool → JSNum := fun u neg =>
    if u = infinityChars then (if neg then .negInf else .inf)
    else
      match parseUnsignedDecimal u with
      | some (v, []) =>
          if neg then (if v = 0 then .negZero else .rat (-v)) else .rat v
      | _ => .nan
  match t with
  | 43 :: rest => core rest false
  | 45 :: rest => core rest true
  | _ => core t false

/-- JS `ToNumber` of a string: trim whitespace, empty gives 0, radix
prefixes, else a signed decimal literal; anything else is NaN.  Values
are kept exact where real JS would round to a double. -/
def jsStringToNumber (s : List Nat) : JSNum :=
  let t := ((s.dropWhile (fun c => jsIsWhite c)).reverse.dropWhile
    (fun c => jsIsWhite c)).reverse
  match t with
  | [] => .rat 0
  | 48 :: 120 :: rest => parseRadix hexVal 16 rest
  | 48 :: 88 :: rest => parseRadix hexVal 16 rest
  | 48 :: 111 :: rest => parseRadix octVal 8 rest
  | 48 :: 79 :: rest => parseRadix octVal 8 rest
  | 48 :: 98 :: rest => parseRadix binVal 2 rest
  | 48 :: 66 :: rest => parseRadix binVal 2 rest
  | _ => parseSignedDecimal t

/-- Value universe of the interpreters.  Arrays are references into the
interpreter heap (so aliasing and in-place mutation behave as in JS);
`fnOther` is a function the `eval` capability produced, identified by the
id the oracle assigned; `tokenRef` is the session's single mutable
token-carrier object `CanvasCaptureMediaStreamTrack`. -/
inductive JSVal where
  | num (n : JSNum)
  | str (s : List Nat)
  | arrRef (i : Nat)
  | fnEval
  | fnToString
  | fnIndexOf
  | fnOther (id : Nat)
  | tokenRef
  | nullV
  | undef
deriving DecidableEq

/-- String-keyed association lookup (property tables). -/
def assocGet (m : List (List Nat × JSVal)) (k : List Nat) : Option JSVal :=
  match m with
  | [] => none
  | kv :: rest => if kv.1 = k then some kv.2 else assocGet rest k

/-- String-keyed association update: the new binding shadows older
ones. -/
def assocSet (m : List (List Nat × JSVal)) (k : List Nat) (v : JSVal) :
    List (List Nat × JSVal) :=
  (k, v) :: m

/-- Exception kinds observable from a `processVMBytecode` call. -/
inductive VMErr where
  | typeErr
  | rangeErr
  | otherErr
deriving DecidableEq

/-- External-host behaviour the interpreters invoke but the repository
does not define: the JS `eval` of the transformed challenge string, calls
of the functions `eval` returns (which may read and update the
token-carrier), their source text (used when they are stringified) and
their arity (their `.length`).  Both interpreters consult the same host,
so one oracle parametrises both. -/
structure VMOracle where
  evalFn : List Nat → Except VMErr JSVal
  applyFn : Nat → JSVal → List JSVal → List (List Nat × JSVal) →
    Except VMErr (JSVal × List (List Nat × JSVal))
  srcOf : Nat → List Nat
  arityOf : Nat → JSNum

/-- JS `ToString` of a value.  Arrays join their elements with commas
(null and undefined elements become empty), recursing through the heap;
the fuel bounds that recursion, and exhausting it models the stack
overflow a cyclic array causes in real JS. -/
def jsToStringVal (o : VMOracle) (heap : List (List JSVal)) :
    Nat → JSVal → Except VMErr (List Nat)
  | _, .num n => .ok (jsNumToChars n)
  | _, .str s => .ok s
  | _, .nullV => .ok nullChars
  | _, .undef => .ok undefChars
  | _, .fnEval => .ok fnEvalSrc
  | _, .fnToString => .ok fnToStringSrc
  | _, .fnIndexOf => .ok fnIndexOfSrc
  | _, .fnOther id => .ok (o.srcOf id)
  | _, .tokenRef => .ok objObjectChars
  | 0, .arrRef _ => .error .rangeErr
  | fuel + 1, .arrRef i => do
      let parts ← (heap.getD i []).mapM (fun v =>
        match v with
        | .nullV => .ok []
        | .undef => .ok []
        | w => jsToStringVal o heap fuel w)
      .ok (List.intercalate [44] parts)

/-- Primitive value, the result of JS `ToPrimitive`. -/
inductive JSPrim where
  | pnum (n : JSNum)
  | pstr (s : List Nat)
  | pnull
  | pundef
deriving DecidableEq

/-- JS `ToPrimitive` (number hint): primitives pass through, objects
(arrays, functions, the token object) fall to their string conversion
because their `valueOf` is not primitive. -/
def jsToPrim (o : VMOracle) (heap : List (List JSVal)) (fuel : Nat) :
    JSVal → Except VMErr JSPrim
  | .num n => .ok (.pnum n)
  | .str s => .ok (.pstr s)
  | .nullV => .ok .pnull
  | .undef => .ok .pundef
  | v => (jsToStringVal o heap fuel v).map .pstr

/-- `ToNumber` of a primitive. -/
def jsPrimToNum : JSPrim → JSNum
  | .pnum n => n
  | .pstr s => jsStringToNumber s
  | .pnull => .rat 0
  | .pundef => .nan

/-- `ToString` of a primitive. -/
def jsPrimToChars : JSPrim → List Nat
  | .pnum n => jsNumToChars n
  | .pstr s => s
  | .pnull => nullChars
  | .pundef => undefChars

/-- JS `ToNumber` of a value. -/
def jsToNumberVal (o : VMOracle) (heap : List (List JSVal)) (fuel : Nat)
    (v : JSVal) : Except VMErr JSNum :=
  (jsToPrim o heap fuel v).map jsPrimToNum

/-- `ToInt32` bit pattern of a value. -/
def jsToInt32BitsVal (o : VMOracle) (heap : List (List JSVal)) (fuel : Nat)
    (v : JSVal) : Except VMErr Nat :=
  (jsToNumberVal o heap fuel v).map jsNumToInt32Bits

/-- JS loose equality `x == 0`, as the guards of opcodes 16, 17 and 19
use it. -/
def jsLooseEqZero (o : VMOracle) (heap : List (List JSVal)) (fuel : Nat)
    (v : JSVal) : Except VMErr Bool :=
  (jsToPrim o heap fuel v).map fun p =>
    match p with
    | .pnum n => jsNumIsZero n
    | .pstr s => jsNumIsZero (jsStringToNumber s)
    | .pnull => false
    | .pundef => false

/-- JS `+`: after converting both operands to primitives, concatenate
when either is a string, else add numerically. -/
def jsAddVal (o : VMOracle) (heap : List (List JSVal)) (fuel : Nat)
    (l r : JSVal) : Except VMErr JSVal := do
  let lp ← jsToPrim o heap fuel l
  let rp ← jsToPrim o heap fuel r
  match lp, rp with
  | .pstr s, _ => .ok (.str (s ++ jsPrimToChars rp))
  | _, .pstr s => .ok (.str (jsPrimToChars lp ++ s))
  | _, _ => .ok (.num (jsNumAdd (jsPrimToNum lp) (jsPrimToNum rp)))

/-- JS `-`: both operands numeric. -/
def jsSubVal (o : VMOracle) (heap : List (List JSVal)) (fuel : Nat)
    (l r : JSVal) : Except VMErr JSVal := do
  let lp ← jsToPrim o heap fuel l
  let rp ← jsToPrim o heap fuel r
  .ok (.num (jsNumSub (jsPrimToNum lp) (jsPrimToNum rp)))

/-- JS `/`: both operands numeric. -/
def jsDivVal (o : VMOracle) (heap : List (List JSVal)) (fuel : Nat)
    (l r : JSVal) : Except VMErr JSVal := do
  let lp ← jsToPrim o heap fuel l
  let rp ← jsToPrim o heap fuel r
  .ok (.num (jsNumDiv (jsPrimToNum lp) (jsPrimToNum rp)))

/-- Lexicographic `<` on code-unit strings. -/
def lexLtChars : List Nat → List Nat → Bool
  | [], [] => false
  | [], _ :: _ => true
  | _ :: _, [] => false
  | a :: as, b :: bs => if a < b then true else if b < a then false else lexLtChars as bs

/-- JS relational `<`: string comparison when both primitives are
strings, numeric otherwise. -/
def jsLessVal (o : VMOracle) (heap : List (List JSVal)) (fuel : Nat)
    (l r : JSVal) : Except VMErr Bool := do
  let lp ← jsToPrim o heap fuel l
  let rp ← jsToPrim o heap fuel r
  match lp, rp with
  | .pstr a, .pstr b => .ok (lexLtChars a b)
  | _, _ => .ok (jsNumLt (jsPrimToNum lp) (jsPrimToNum rp))

/-- JS strict equality `===` on the value universe.  References compare
by identity (heap index / the single token object); distinct array
allocations are never equal. -/
def jsStrictEq : JSVal → JSVal → Bool
  | .num a, .num b => jsNumStrictEq a b
  | .str a, .str b => a == b
  | .arrRef i, .arrRef j => i == j
  | .fnEval, .fnEval => true
  | .fnToString, .fnToString => true
  | .fnIndexOf, .fnIndexOf => true
  | .fnOther i, .fnOther j => i == j
  | .tokenRef, .tokenRef => true
  | .nullV, .nullV => true
  | .undef, .undef => true
  | _, _ => false

/-- True exactly on the number zero (what `0 !== popTwo` of opcode 49
rules out). -/
def isNumberZero : JSVal → Bool
  | .num n => jsNumIsZero n
  | _ => false

/-- Interpreter state of one `processVMBytecode` call: the byte list,
the loop cursor `index` (an arbitrary value right after opcode 48, a
number otherwise), the operand stack (top first), the auxiliary store
`backupStack` keyed by property strings, the array heap, and the
session's token-carrier property map. -/
structure VMState where
  bytecode : List Nat
  cursor : JSVal
  stack : List JSVal
  backup : List (List Nat × JSVal)
  heap : List (List JSVal)
  token : List (List Nat × JSVal)
deriving DecidableEq

/-- `mainStack.pop()`: undefined on an empty stack. -/
def vmPop : List JSVal → JSVal × List JSVal
  | [] => (.undef, [])
  | v :: rest => (v, rest)

/-- Pop `n` values, returning them in pop order with the remaining
stack. -/
def popN : Nat → List JSVal → (List JSVal × List JSVal)
  | 0, stk => ([], stk)
  | n + 1, stk =>
      let p := vmPop stk
      let r := popN n p.2
      (p.1 :: r.1, r.2)

/-- Observable outcome of a `processVMBytecode` call: a normal return
(opcode 80, or falling off the bytecode, which returns undefined) or a
thrown exception, each with the final token-carrier state. -/
inductive VMResult where
  | ret (v : JSVal) (token : List (List Nat × JSVal))
  | threw (e : VMErr) (token : List (List Nat × JSVal))
deriving DecidableEq

/-- Result of one main-loop iteration. -/
inductive StepOut where
  | next (st : VMState)
  | halt (r : VMResult)
  | spin
deriving DecidableEq

/-- Conversion fuel: deeper than any acyclic reference chain in the
heap. -/
def vmFuel (st : VMState) : Nat := st.heap.length + 1

/-- Propagate a thrown exception out of the current step. -/
def orThrow {α : Type} (st : VMState) (x : Except VMErr α) (k : α → StepOut) : StepOut :=
  match x with
  | .error e => .halt (.threw e st.token)
  | .ok a => k a

/-- `processedBytes[n]` for a numeric subscript: a byte only when the
subscript is an integer index inside the list. -/
def byteAt (bc : List Nat) (n : JSNum) : Option Nat :=
  match n with
  | .rat q =>
      if q.den = 1 ∧ 0 ≤ q.num ∧ q.num < bc.length then bc[q.num.toNat]? else none
  | _ => none

/-- Read the byte at the cursor and advance it by one (the `index++` of
operand-fetching opcodes; the cursor is numeric at these points). -/
def readByteAdv (st : VMState) : Option Nat × VMState :=
  match st.cursor with
  | .num n => (byteAt st.bytecode n, { st with cursor := .num (jsNumAdd n (.rat 1)) })
  | _ => (none, st)

/-- Read `n` cursor bytes, XOR each with 0xB2 as `ToInt32` values and
clamp to code units (opcode 66's loop); bytes past the end read as
undefined and coerce to 0. -/
def readXorChars : Nat → VMState → (List Nat × VMState)
  | 0, st => ([], st)
  | n + 1, st =>
      let p := readByteAdv st
      let bits := (p.1.getD 0) % 4294967296
      let r := readXorChars n p.2
      (((bits ^^^ 0xb2) % 65536) :: r.1, r.2)

/-- Pop `n` values, XOR each with 0xB2 as `ToInt32` values and clamp to
code units (opcode 65's loop). -/
def popXorChars (o : VMOracle) (heap : List (List JSVal)) :
    Nat → List JSVal → Except VMErr (List Nat × List JSVal)
  | 0, stk => .ok ([], stk)
  | n + 1, stk => do
      let p := vmPop stk
      let bits ← jsToInt32BitsVal o heap (heap.length + 1) p.1
      let r ← popXorChars o heap n p.2
      .ok ((((bits ^^^ 0xb2) % 65536) :: r.1), r.2)

/-- Iteration count of `for (i = 0; i < count; i++)`: none (divergence)
at +Infinity, the ceiling of a positive finite bound, zero otherwise. -/
def iterUp : JSNum → Option Nat
  | .inf => none
  | .rat q => some (if 0 < q then ⌈q⌉.toNat else 0)
  | _ => some 0

/-- Iteration count of `for (i = count - 1; i >= 0; i--)`: none at
+Infinity, the floor of a positive finite bound, zero otherwise. -/
def iterDown : JSNum → Option Nat
  | .inf => none
  | .rat q => some (if 0 < q then ⌊q⌋.toNat else 0)
  | _ => some 0

/-- Decimal-digit test on a code unit. -/
def isDigitChar (c : Nat) : Bool := decide (48 ≤ c ∧ c ≤ 57)

/-- Array-index reading of a property key: canonical decimal numerals
below `2^32 - 1` (no leading zeros). -/
def arrayIndexOfKey (s : List Nat) : Option Nat :=
  match s with
  | [] => none
  | [c] => if 48 ≤ c ∧ c ≤ 57 then some (c - 48) else none
  | c :: rest =>
      if 49 ≤ c ∧ c ≤ 57 ∧ rest.all isDigitChar then
        let v := (c :: rest).foldl (fun acc d => acc * 10 + (d - 48)) 0
        if v < 4294967295 then some v else none
      else none

/-- Array element write `cell[idx] = v`, extending with undefined holes
beyond the current length. -/
def setCellIdx (cell : List JSVal) (idx : Nat) (v : JSVal) : List JSVal :=
  if idx < cell.length then cell.set idx v
  else cell ++ List.replicate (idx - cell.length) JSVal.undef ++ [v]

/-- The `.length` property as the interpreters read it: strings and
arrays report their length, functions their arity, the token object
whatever its map holds under the key `length` (undefined by default);
numbers have no such property; null and undefined throw. -/
def lengthProp (o : VMOracle) (heap : List (List JSVal))
    (token : List (List Nat × JSVal)) : JSVal → Except VMErr JSVal
  | .str s => .ok (.num (.rat s.length))
  | .arrRef i => .ok (.num (.rat (heap.getD i []).length))
  | .fnEval => .ok (.num (.rat 1))
  | .fnToString => .ok (.num (.rat 0))
  | .fnIndexOf => .ok (.num (.rat 1))
  | .fnOther id => .ok (.num (o.arityOf id))
  | .tokenRef => .ok ((assocGet token lengthChars).getD .undef)
  | .num _ => .ok .undef
  | .nullV => .error .typeErr
  | .undef => .error .typeErr

/-- `Object.prototype.toString` tag of a value. -/
def toStringTag : JSVal → List Nat
  | .undef => tagUndefinedChars
  | .nullV => tagNullChars
  | .num _ => tagNumberChars
  | .str _ => tagStringChars
  | .arrRef _ => tagArrayChars
  | .fnEval => tagFunctionChars
  | .fnToString => tagFunctionChars
  | .fnIndexOf => tagFunctionChars
  | .fnOther _ => tagFunctionChars
  | .tokenRef => objObjectChars

/-- Generic indexed element read used by `Array.prototype.indexOf`:
strings yield one-character strings, arrays read their heap cell, the
token object its decimal-keyed properties; absent elements (including
undefined-valued ones, see the module note on holes) are skipped. -/
def getElemGeneric (heap : List (List JSVal)) (token : List (List Nat × JSVal)) :
    JSVal → Nat → Option JSVal
  | .str s, i => if i < s.length then some (.str [s.getD i 0]) else none
  | .arrRef a, i =>
      match (heap.getD a []).getD i .undef with
      | .undef => none
      | v => some v
  | .tokenRef, i =>
      match assocGet token (natToDecimal i) with
      | some .undef => none
      | some v => some v
      | none => none
  | _, _ => none

/-- Linear search of `Array.prototype.indexOf` from index `k` with the
given remaining count. -/
def indexOfSearch (heap : List (List JSVal)) (token : List (List Nat × JSVal))
    (recv target : JSVal) : Nat → Nat → Option Nat
  | _, 0 => none
  | k, fuel + 1 =>
      match getElemGeneric heap token recv k with
      | some v =>
          if jsStrictEq v target then some k
          else indexOfSearch heap token recv target (k + 1) fuel
      | none => indexOfSearch heap token recv target (k + 1) fuel

/-- JS `ToLength`: clamp into `[0, 2^53 - 1]`. -/
def toLengthNat : JSNum → Nat
  | .inf => 9007199254740991
  | .rat q => if q ≤ 0 then 0 else min ⌊q⌋.toNat 9007199254740991
  | _ => 0

/-- `Array.prototype.indexOf` applied generically (`indexOf.apply(this,
args)`): throws on a null or undefined receiver, reads the receiver's
length, normalises the from-index argument and searches with strict
equality. -/
def indexOfApply (o : VMOracle) (heap : List (List JSVal))
    (token : List (List Nat × JSVal)) (recv : JSVal) (args : List JSVal) :
    Except VMErr JSNum :=
  match recv with
  | .nullV => .error .typeErr
  | .undef => .error .typeErr
  | _ => do
      let llen ← lengthProp o heap token recv
      let ln ← jsToNumberVal o heap (heap.length + 1) llen
      let L := toLengthNat ln
      if L = 0 then .ok (.rat (-1))
      else do
        let fn ← jsToNumberVal o heap (heap.length + 1) (args.getD 1 .undef)
        match fn with
        | .inf => .ok (.rat (-1))
        | _ =>
            let nInt : Int :=
              match fn with
              | .rat q => qTrunc q
              | .negInf => -(L : Int)
              | _ => 0
            let k : Nat := if 0 ≤ nInt then nInt.toNat else ((L : Int) + nInt).toNat
            match indexOfSearch heap token recv (args.getD 0 .undef) k (L - k) with
            | some i => .ok (.rat i)
            | none => .ok (.rat (-1))

/-- Last dot-separated segment of a name (`split('.').pop()`). -/
def lastDotSegment (s : List Nat) : List Nat :=
  (s.reverse.takeWhile (fun c => c != 46)).reverse

/-- Character class `[a-zA-Z0-9_.]` of the function-literal pattern. -/
def isWordCharJS (c : Nat) : Bool :=
  isDigitChar c || decide (65 ≤ c ∧ c ≤ 90) || decide (97 ≤ c ∧ c ≤ 122) ||
    c == 95 || c == 46

/-- Backtracking over the greedy first capture group of the pattern
`([a-zA-Z0-9_.]+)=function\(([^)]*)\)` at a fixed start position: try
group lengths from the maximal run downward; on success return the group
length, the whole match length, and the second group. -/
def tryGroupOneLens (s : List Nat) (start : Nat) : Nat → Option (Nat × Nat × List Nat)
  | 0 => none
  | l + 1 =>
      if eqFunctionParenChars.isPrefixOf (s.drop (start + (l + 1))) then
        match (s.drop (start + (l + 1) + 10)).findIdx? (fun c => c == 41) with
        | some d => some (l + 1, (l + 1) + 10 + d + 1, (s.drop (start + (l + 1) + 10)).take d)
        | none => tryGroupOneLens s start l
      else tryGroupOneLens s start l

/-- Leftmost match of the pattern over start positions (fuel-driven
scan): returns start position, first-group length, match length and
second group. -/
def regexSearchFrom (s : List Nat) : Nat → Nat → Option (Nat × Nat × Nat × List Nat)
  | _, 0 => none
  | start, fuel + 1 =>
      let m := ((s.drop start).takeWhile isWordCharJS).length
      match tryGroupOneLens s start m with
      | some r => some (start, r.1, r.2.1, r.2.2)
      | none => regexSearchFrom s (start + 1) fuel

/-- `transformString` of opcode 133's eval path (senpaAuth.js lines
463-478): rewrap the matched `name=function(params)` as a standalone
function expression; `funcBody` is the input from offset `match[0].length`
(the match length, not its end offset), exactly as the source computes
it; without a match the literal text `Pattern not found` is returned. -/
def transformStr (s : List Nat) : List Nat :=
  match regexSearchFrom s 0 (s.length + 1) with
  | none => patternNotFoundChars
  | some r =>
      let g1 := (s.drop r.1).take r.2.1
      let funcName := lastDotSegment g1
      let funcBody := s.drop r.2.2.1
      openFunctionChars ++ funcName ++ [40] ++ r.2.2.2 ++ [41] ++ funcBody ++ [41]

/-- Opcode 67 (capability lookup), on the already-popped key and
receiver.  The switch resolves the five known string keys and pushes 0
for anything else; with `deref67` set (the tricksplit interpreter) the
discarded member access `popTwo[popOne]` runs first: it throws a
TypeError on a null or undefined receiver, and otherwise still converts
the key to a property string, which can itself throw. -/
def exec67 (deref67 : Bool) (o : VMOracle) (st : VMState)
    (key recv : JSVal) (rest : List JSVal) : StepOut :=
  let push : JSVal → StepOut := fun v => .next { st with stack := v :: rest }
  let common : StepOut :=
    match key with
    | .str s =>
        if s = evalChars then push .fnEval
        else if s = toStringChars then push .fnToString
        else if s = indexOfChars then push .fnIndexOf
        else if s = getAttributeChars then push (.str getAttributeChars)
        else if s = canvasTrackChars then push .tokenRef
        else push (.num (.rat 0))
    | _ => push (.num (.rat 0))
  if deref67 then
    match recv with
    | .nullV => .halt (.threw .typeErr st.token)
    | .undef => .halt (.threw .typeErr st.token)
    | _ => orThrow st (jsToStringVal o st.heap (vmFuel st) key) (fun _ => common)
  else common

/-- One opcode of the shared interpreter body, run after the instruction
byte has been fetched and the cursor advanced past it.  An absent byte
(non-integer or out-of-range cursor) is `switch(undefined)`: no case
matches, a no-op - exactly as an opcode value outside the table.  The
`deref67` flag enables the tricksplit variant's extra discarded member
access in opcode 67, the only difference between the two source
interpreters. -/
def execOp (deref67 : Bool) (o : VMOracle) (st : VMState) : Option Nat → StepOut
  | none => .next st
  | some instr =>
    if instr = 0 then .next st
    else if instr = 2 then
      let p := vmPop st.stack
      orThrow st (jsToStringVal o st.heap (vmFuel st) p.1) fun key =>
      .next { st with stack := ((assocGet st.backup key).getD .undef) :: p.2 }
    else if instr = 3 then
      let p1 := vmPop st.stack
      let p2 := vmPop p1.2
      orThrow st (jsToStringVal o st.heap (vmFuel st) p1.1) fun key =>
      .next { st with stack := p2.2, backup := assocSet st.backup key p2.1 }
    else if instr = 4 then
      .next { st with stack := (st.stack.headD .undef) :: st.stack }
    else if instr = 5 then
      let p1 := vmPop st.stack
      let p2 := vmPop p1.2
      .next { st with stack := p2.1 :: p1.1 :: p2.2 }
    else if instr = 16 then
      let p1 := vmPop st.stack
      let p2 := vmPop p1.2
      orThrow st (jsLooseEqZero o st.heap (vmFuel st) p1.1) fun z =>
      if z then
        orThrow st (jsAddVal o st.heap (vmFuel st) p2.1 p1.1) fun v =>
        .next { st with stack := v :: p2.2 }
      else .next { st with stack := .num (.rat 0) :: p2.2 }
    else if instr = 17 then
      let p1 := vmPop st.stack
      let p2 := vmPop p1.2
      orThrow st (jsLooseEqZero o st.heap (vmFuel st) p1.1) fun z =>
      if z then
        orThrow st (jsSubVal o st.heap (vmFuel st) p2.1 p1.1) fun v =>
        .next { st with stack := v :: p2.2 }
      else .next { st with stack := .num (.rat 0) :: p2.2 }
    else if instr = 18 then
      let p1 := vmPop st.stack
      let p2 := vmPop p1.2
      orThrow st (jsToInt32BitsVal o st.heap (vmFuel st) p2.1) fun bb =>
      orThrow st (jsToInt32BitsVal o st.heap (vmFuel st) p1.1) fun ab =>
      .next { st with stack := .num (jsNumOfInt32Bits ((bb * ab) % 4294967296)) :: p2.2 }
    else if instr = 19 then
      let p1 := vmPop st.stack
      let p2 := vmPop p1.2
      orThrow st (jsLooseEqZero o st.heap (vmFuel st) p1.1) fun z =>
      if z then
        orThrow st (jsDivVal o st.heap (vmFuel st) p2.1 p1.1) fun v =>
        .next { st with stack := v :: p2.2 }
      else .next { st with stack := .num (.rat 0) :: p2.2 }
    else if instr = 20 then
      let p1 := vmPop st.stack
      let p2 := vmPop p1.2
      orThrow st (jsToInt32BitsVal o st.heap (vmFuel st) p2.1) fun bb =>
      orThrow st (jsToInt32BitsVal o st.heap (vmFuel st) p1.1) fun ab =>
      .next { st with stack := .num (jsNumOfInt32Bits (bb ^^^ ab)) :: p2.2 }
    else if instr = 21 then
      let p1 := vmPop st.stack
      let p2 := vmPop p1.2
      orThrow st (jsToInt32BitsVal o st.heap (vmFuel st) p2.1) fun bb =>
      orThrow st (jsToInt32BitsVal o st.heap (vmFuel st) p1.1) fun ab =>
      .next { st with
        stack := .num (jsNumOfInt32Bits ((bb <<< (ab &&& 31)) % 4294967296)) :: p2.2 }
    else if instr = 22 then
      let p1 := vmPop st.stack
      let p2 := vmPop p1.2
      orThrow st (jsToInt32BitsVal o st.heap (vmFuel st) p2.1) fun bb =>
      orThrow st (jsToInt32BitsVal o st.heap (vmFuel st) p1.1) fun ab =>
      .next { st with
        stack := .num (.rat ((Int.ediv (asInt32 bb) (2 ^ (ab &&& 31)) : Int) : ℚ)) :: p2.2 }
    else if instr = 23 then
      let p1 := vmPop st.stack
      let p2 := vmPop p1.2
      orThrow st (jsToInt32BitsVal o st.heap (vmFuel st) p2.1) fun bb =>
      orThrow st (jsToInt32BitsVal o st.heap (vmFuel st) p1.1) fun ab =>
      .next { st with stack := .num (jsNumOfInt32Bits (bb &&& ab)) :: p2.2 }
    else if instr = 32 then
      let p := vmPop st.stack
      orThrow st (jsToInt32BitsVal o st.heap (vmFuel st) p.1) fun ab =>
      .next { st with stack := .num (jsNumOfInt32Bits (ab ^^^ 0xffffffff)) :: p.2 }
    else if instr = 64 then
      let p := vmPop st.stack
      orThrow st (lengthProp o st.heap st.token p.1) fun llen =>
      orThrow st (jsLessVal o st.heap (vmFuel st) llen (.num (.rat 1))) fun cond =>
      match (if cond then JSVal.str [] else p.1) with
      | .str s =>
          .next { st with
            stack := .num (.rat s.length) :: .arrRef st.heap.length :: p.2,
            heap := st.heap ++
              [s.reverse.map (fun c => JSVal.num (jsNumOfInt32Bits ((c % 4294967296) ^^^ 0xb2)))] }
      | x =>
          orThrow st (lengthProp o st.heap st.token x) fun llen2 =>
          orThrow st (jsToNumberVal o st.heap (vmFuel st) llen2) fun ln =>
          match iterDown ln with
          | some 0 =>
              .next { st with stack := llen2 :: .arrRef st.heap.length :: p.2,
                              heap := st.heap ++ [[]] }
          | _ => .halt (.threw .typeErr st.token)
    else if instr = 65 then
      let p := vmPop st.stack
      orThrow st (jsLessVal o st.heap (vmFuel st) p.1 (.num (.rat 1))) fun cond =>
      orThrow st (jsToNumberVal o st.heap (vmFuel st)
          (if cond then JSVal.num (.rat 0) else p.1)) fun cnt =>
      match iterUp cnt with
      | none => .spin
      | some n =>
          orThrow st (popXorChars o st.heap n p.2) fun r =>
          .next { st with stack := .str r.1 :: r.2 }
    else if instr = 66 then
      let p := readByteAdv st
      let r := readXorChars (p.1.getD 0) p.2
      .next { r.2 with stack := .str r.1 :: r.2.stack }
    else if instr = 67 then
      let p1 := vmPop st.stack
      let p2 := vmPop p1.2
      exec67 deref67 o st p1.1 p2.1 p2.2
    else if instr = 68 then
      let p1 := vmPop st.stack
      let p2 := vmPop p1.2
      let p3 := vmPop p2.2
      if p2.1 = .nullV ∨ p2.1 = .undef then .halt (.threw .typeErr st.token)
      else
        orThrow st (jsToStringVal o st.heap (vmFuel st) p1.1) fun key =>
        match p2.1 with
        | .num _ => .halt (.threw .typeErr st.token)
        | .str _ => .halt (.threw .typeErr st.token)
        | .tokenRef =>
            .next { st with stack := p3.2, token := assocSet st.token key p3.1 }
        | .arrRef i =>
            if key = lengthChars then
              orThrow st (jsToNumberVal o st.heap (vmFuel st) p3.1) fun nv =>
              match nv with
              | .rat q =>
                  if q.den = 1 ∧ 0 ≤ q.num ∧ q.num < 4294967296 then
                    let cell := st.heap.getD i []
                    let cell2 := cell.take q.num.toNat ++
                      List.replicate (q.num.toNat - cell.length) JSVal.undef
                    .next { st with stack := p3.2, heap := st.heap.set i cell2 }
                  else .halt (.threw .rangeErr st.token)
              | .negZero => .next { st with stack := p3.2, heap := st.heap.set i [] }
              | _ => .halt (.threw .rangeErr st.token)
            else
              match arrayIndexOfKey key with
              | some idx =>
                  .next { st with
                    stack := p3.2
                    heap := st.heap.set i (setCellIdx (st.heap.getD i []) idx p3.1) }
              | none => .next { st with stack := p3.2 }
        | _ => .next { st with stack := p3.2 }
    else if instr = 48 then
      let p := vmPop st.stack
      .next { st with cursor := p.1, stack := p.2 }
    else if instr = 49 then
      let p1 := vmPop st.stack
      let p2 := vmPop p1.2
      if isNumberZero p2.1 then .next { st with stack := p2.2 }
      else .next { st with cursor := p1.1, stack := p2.2 }
    else if instr = 132 then
      let r1 := readByteAdv st
      let r2 := readByteAdv r1.2
      let r3 := readByteAdv r2.2
      let r4 := readByteAdv r3.2
      .next { r4.2 with
        stack := .num (jsNumOfInt32Bits
          ((((r1.1.getD 0) % 4294967296) |||
            ((((r2.1.getD 0) % 4294967296) <<< 8) % 4294967296)) |||
           (((((r3.1.getD 0) % 4294967296) <<< 16) % 4294967296) |||
            ((((r4.1.getD 0) % 4294967296) <<< 24) % 4294967296)))) :: r4.2.stack }
    else if instr = 133 then
      let p1 := vmPop st.stack
      orThrow st (jsToNumberVal o st.heap (vmFuel st) p1.1) fun cnt =>
      match iterDown cnt with
      | none => .spin
      | some n =>
          let pr := popN n p1.2
          let args : List JSVal :=
            match cnt with
            | .rat q => if q.den = 1 then pr.1.reverse else []
            | _ => []
          let pf := vmPop pr.2
          let pa := vmPop pf.2
          match pf.1 with
          | .fnEval =>
              (match args.getD 0 .undef with
               | .str s0 =>
                   (match o.evalFn (transformStr s0) with
                    | .error e => .halt (.threw e st.token)
                    | .ok r => .next { st with stack := r :: pa.2 })
               | _ => .halt (.threw .typeErr st.token))
          | .str s =>
              if s = getAttributeChars then .next { st with stack := .nullV :: pa.2 }
              else .halt (.threw .typeErr st.token)
          | .fnToString =>
              .next { st with stack := .str (toStringTag pa.1) :: pa.2 }
          | .fnIndexOf =>
              orThrow st (indexOfApply o st.heap st.token pa.1 args) fun r =>
              .next { st with stack := .num r :: pa.2 }
          | .fnOther id =>
              (match o.applyFn id pa.1 args st.token with
               | .error e => .halt (.threw e st.token)
               | .ok rt => .next { st with stack := rt.1 :: pa.2, token := rt.2 })
          | _ => .halt (.threw .typeErr st.token)
    else if instr = 96 then
      .next { st with stack := .num (.rat 0) :: st.stack }
    else if instr = 80 then
      let p := vmPop st.stack
      .halt (.ret p.1 st.token)
    else .next st

/-- One iteration of the interpreter main loop: test
`index < processedBytes.length` (a full JS relational comparison, since
opcode 48 can set the cursor to any value), return undefined when it
fails, otherwise fetch `processedBytes[index++]` and execute the
opcode. -/
def stepOnce (deref67 : Bool) (o : VMOracle) (st : VMState) : StepOut :=
  orThrow st
    (jsLessVal o st.heap (vmFuel st) st.cursor (.num (.rat st.bytecode.length)))
    fun cond =>
  if cond then
    orThrow st (jsToNumberVal o st.heap (vmFuel st) st.cursor) fun n =>
    execOp deref67 o { st with cursor := .num (jsNumAdd n (.rat 1)) }
      (byteAt st.bytecode n)
  else .halt (.ret .undef st.token)

/-- Fuel-indexed run of the interpreter loop; none when the fuel runs
out or an inner loop diverges. -/
def vmRun (deref67 : Bool) (o : VMOracle) : Nat → VMState → Option VMResult
  | 0, _ => none
  | fuel + 1, st =>
      match stepOnce deref67 o st with
      | .next st2 => vmRun deref67 o fuel st2
      | .halt r => some r
      | .spin => none

/-- Fresh interpreter state over a byte list and the session's current
token-carrier map. -/
def initVMState (bc : List Nat) (token : List (List Nat × JSVal)) : VMState :=
  { bytecode := bc, cursor := .num (.rat 0), stack := [], backup := [],
    heap := [], token := token }

/-- `SenpaWasmInstance.processVMBytecode` (senpaAuth.js lines 232-512). -/
def senpaProcessVMBytecode (o : VMOracle) (fuel : Nat) (bc : List Nat)
    (token : List (List Nat × JSVal)) : Option VMResult :=
  vmRun false o fuel (initVMState bc token)

/-- `TricksplitWasmInstance.processVMBytecode` (tricksplit.js lines
76-358): textually identical to the senpa interpreter except for the
extra discarded member access `var result = popTwo[popOne]` in opcode
67. -/
def tricksplitProcessVMBytecode (o : VMOracle) (fuel : Nat) (bc : List Nat)
    (token : List (List Nat × JSVal)) : Option VMResult :=
  vmRun true o fuel (initVMState bc token)

/-- Opcode values the interpreters' switch handles. -/
def opcodeTable : List Nat :=
  [0, 2, 3, 4, 5, 16, 17, 18, 19, 20, 21, 22, 23, 32, 64, 65, 66, 67, 68,
   48, 49, 132, 133, 96, 80]

/-- Oracle for concrete runs whose bytecode never consults the host:
every consultation fails. -/
def trivialOracle : VMOracle :=
  { evalFn := fun _ => .error .otherErr
    applyFn := fun _ _ _ _ => .error .otherErr
    srcOf := fun _ => []
    arityOf := fun _ => .rat 0 }

/-!  Helper lemmas shared by several claim theorems. -/

theorem lcgRunOutputs_getD (modulo : Nat) :
    ∀ n k i, i < n →
      (lcgRunOutputs modulo n (lcgStateAfter k)).getD i 0 =
        (lcgStateAfter (k + i + 1) >>> 33) % modulo := by
  intro n
  induction n with
  | zero => intro k i h; omega
  | succ n ih =>
      intro k i h
      cases i with
      | zero =>
          simp [lcgRunOutputs, computeNextLCGValue, lcgStateAfter]
      | succ i =>
          have hs : lcgStateAfter k * lcgMultiplier + 1 = lcgStateAfter (k + 1) := rfl
          have hrec := ih (k + 1) i (by omega)
          have harg : k + 1 + i + 1 = k + (i + 1) + 1 := by omega
          rw [harg] at hrec
          simpa [lcgRunOutputs, computeNextLCGValue, hs] using hrec

theorem getD_append_cons (pre : List Nat) (c : Nat) (rest : List Nat) :
    (pre ++ c :: rest).getD pre.length 0 = c := by
  induction pre with
  | nil => rfl
  | cons a pre ih => simpa using ih

theorem set_append_cons (pre : List Nat) (c v : Nat) (rest : List Nat) :
    (pre ++ c :: rest).set pre.length v = pre ++ v :: rest := by
  induction pre with
  | nil => rfl
  | cons a pre ih => simp [List.set, ih]

theorem decryptMessageLoop_spec (keys : List Nat) :
    ∀ (rest pre : List Nat) (idx fuel : Nat), rest.length ≤ fuel →
      decryptMessageLoop keys fuel idx (pre ++ rest) pre.length =
        pre ++ decryptStream keys idx rest := by
  intro rest
  induction rest with
  | nil =>
      intro pre idx fuel _
      cases fuel with
      | zero => simp [decryptMessageLoop, decryptStream]
      | succ fuel => simp [decryptMessageLoop, decryptStream]
  | cons c rest ih =>
      intro pre idx fuel hle
      cases fuel with
      | zero => simp at hle
      | succ fuel =>
          have hlt : pre.length < (pre ++ c :: rest).length := by
            simp
          rw [decryptMessageLoop, if_pos hlt, getD_append_cons, set_append_cons]
          have hlen2 : rest.length ≤ fuel := by
            simp only [List.length_cons] at hle; omega
          have hstep := ih
            (pre ++ [(keys.getD (if idx ≠ keys.length then idx else 0) 0 ^^^ c) % 256])
            ((if idx ≠ keys.length then idx else 0) + 1) fuel hlen2
          simp only [List.append_assoc, List.singleton_append, List.length_append,
            List.length_cons, List.length_nil, Nat.add_zero] at hstep
          rw [hstep]
          simp [decryptStream]

theorem decryptMessage_spec (keys : List Nat) (b0 : Nat) (rest : List Nat) :
    decryptMessage keys (b0 :: rest) =
      (b0 :: decryptStream keys b0 rest, decryptStream keys b0 rest) := by
  unfold decryptMessage
  have h := decryptMessageLoop_spec keys rest [b0] b0 (rest.length + 1) (by omega)
  simp only [List.singleton_append, List.length_cons, List.length_nil] at h ⊢
  rw [show (b0 :: rest).getD 0 0 = b0 from rfl] at *
  rw [h]
  simp

theorem decryptStream_encryptLoop (keys : List Nat) (hkeys : ∀ k ∈ keys, k < 256)
    (hpos : 0 < keys.length) :
    ∀ (m : List Nat) (s : Nat), (∀ b ∈ m, b < 256) → s ≤ keys.length →
      decryptStream keys s (encryptMessageLoop keys s m) = m := by
  intro m
  induction m with
  | nil => intro s _ _; rfl
  | cons b rest ih =>
      intro s hm hs
      rw [encryptMessageLoop, decryptStream]
      have hidx : (if s ≠ keys.length then s else 0) = (if keys.length = s then 0 else s) := by
        by_cases h : s = keys.length <;> simp [h, eq_comm]
      rw [hidx]
      have hmt : (if keys.length = s then 0 else s) < keys.length := by
        by_cases h : keys.length = s <;> simp [h] <;> omega
      have hk : keys.getD (if keys.length = s then 0 else s) 0 < 256 := by
        rw [List.getD_eq_getElem keys 0 hmt]
        exact hkeys _ (List.getElem_mem hmt)
      have hb : b < 256 := hm b (List.mem_cons_self b rest)
      have hxor : b ^^^ keys.getD (if keys.length = s then 0 else s) 0 < 256 :=
        Nat.xor_lt_two_pow (n := 8) hb hk
      rw [List.cons.injEq]
      constructor
      · rw [Nat.mod_eq_of_lt hxor, Nat.xor_comm b, ← Nat.xor_assoc, Nat.xor_self,
          Nat.zero_xor, Nat.mod_eq_of_lt hb]
      · exact ih _ (fun x hx => hm x (List.mem_cons_of_mem b hx)) (by omega)

/-!  Claim theorems. -/

/-- C1 (evaluation of the code at the failing input): delivering only a
16-byte server packet, with no prior 65-byte packet, to a fresh Variant A
session already sets `encryptionEnabled`, because the JS guard
`decryptionKeys !== NaN` on senpaAuth.js line 132 is vacuously true.  The
claimed invariant - cipher inactive until both packets are processed - is
violated by the code. -/
theorem senpa_cipher_enabled_after_16_byte_packet_alone :
    (senpaOnMessages (initSenpaState [0, 0, 0, 0, 0, 0, 0, 0])
        [List.replicate 16 0]).encryptionEnabled = true := by
  rfl

/-- C2 counterexample: on the concrete 65-byte packet whose byte at
offset `k` is `k`, the table derived by `processDecryptionKeys` has 32
entries, not the claimed 64, so the claimed description (64 entries,
entry `i` = byte at offset `i + 1` XOR `0xB2`) is false. -/
theorem processDecryptionKeys_claim_false :
    ¬ ((processDecryptionKeys (List.range 65)).length = 64 ∧
        ∀ i, i < 64 → (processDecryptionKeys (List.range 65)).getD i 0 =
          ((List.range 65).getD (i + 1) 0) ^^^ 0xb2) := by
  intro h
  exact absurd h.1 (by decide)

theorem processDecryptionKeysLoop_spec (keys : List Nat) :
    ∀ fuel index, index % 2 = 1 → 66 - index ≤ 2 * fuel →
      processDecryptionKeysLoop keys fuel index =
        (List.range ((66 - index) / 2)).map
          (fun j => (keys.getD (index + 1 + 2 * j) 0) ^^^ 0xb2) := by
  intro fuel
  induction fuel with
  | zero =>
      intro index hodd hle
      have h66 : 66 - index = 0 := by omega
      simp [processDecryptionKeysLoop, h66]
  | succ fuel ih =>
      intro index hodd hle
      by_cases hlt : index < 65
      · rw [processDecryptionKeysLoop, if_pos hlt]
        have harg2 : index + 1 + 1 = index + 2 := by omega
        rw [harg2, ih (index + 2) (by omega) (by omega)]
        have hrange : (66 - index) / 2 = ((66 - (index + 2)) / 2) + 1 := by omega
        rw [hrange, List.range_succ_eq_map, List.map_cons, List.map_map]
        congr 1
        apply List.map_congr_left
        intro j _
        simp only [Function.comp_apply, Nat.succ_eq_add_one]
        have harg : index + 1 + 2 * (j + 1) = index + 2 + 1 + 2 * j := by omega
        rw [harg]
      · have h66 : (66 - index) / 2 = 0 := by omega
        rw [processDecryptionKeysLoop, if_neg hlt, h66]
        simp

/-- C2 amended: for every 65-byte inbound packet the derived
decryption-key table has 32 entries, and entry `i` equals the byte at
offset `2 * (i + 1)` XOR `0xB2` - the double increment of the loop
consumes only every second byte of the payload. -/
theorem processDecryptionKeys_table (keys : List Nat) (_h : keys.length = 65) :
    (processDecryptionKeys keys).length = 32 ∧
      ∀ i, i < 32 → (processDecryptionKeys keys).getD i 0 =
        (keys.getD (2 * (i + 1)) 0) ^^^ 0xb2 := by
  have hspec := processDecryptionKeysLoop_spec keys 65 1 (by decide) (by decide)
  norm_num at hspec
  rw [processDecryptionKeys, hspec]
  constructor
  · simp
  · intro i hi
    rw [List.getD_eq_getElem?_getD, List.getElem?_map, List.getElem?_range hi]
    simp only [Option.map_some', Option.getD_some, List.getD_eq_getElem?_getD]
    have harg : 2 * (i + 1) = 2 + 2 * i := by omega
    rw [harg]

/-- Witness for the amended C2, at the packet whose byte `k` is `k`. -/
theorem processDecryptionKeys_table_witness :
    (List.range 65).length = 65 ∧
      ((processDecryptionKeys (List.range 65)).length = 32 ∧
        ∀ i, i < 32 → (processDecryptionKeys (List.range 65)).getD i 0 =
          ((List.range 65).getD (2 * (i + 1)) 0) ^^^ 0xb2) :=
  ⟨by decide, processDecryptionKeys_table (List.range 65) (by decide)⟩

/-- C3: Variant A round trip.  For every key-byte array (byte-valued
entries, length at most 256 - the session installs a 32-byte array) with
the same bytes serving as encryption keys and decryption table, every
byte-valued plaintext of any length, and every LCG starting index below
the key length, decrypting the encryption of a message returns the
message. -/
theorem variantA_roundtrip (keys : List Nat) (s : Nat) (m : List Nat)
    (hkeys : ∀ k ∈ keys, k < 256) (hm : ∀ b ∈ m, b < 256)
    (hlen : keys.length ≤ 256) (hs : s < keys.length) :
    (decryptMessage keys (encryptMessage keys s m)).2 = m := by
  unfold encryptMessage
  rw [Nat.mod_eq_of_lt (lt_of_lt_of_le hs hlen), decryptMessage_spec]
  exact decryptStream_encryptLoop keys hkeys (by omega) m s hm (le_of_lt hs)

/-- Witness for C3 at concrete keys, index and message. -/
theorem variantA_roundtrip_witness :
    ((∀ k ∈ ([1, 2, 3] : List Nat), k < 256) ∧ (∀ b ∈ ([250, 7] : List Nat), b < 256) ∧
        ([1, 2, 3] : List Nat).length ≤ 256 ∧ 2 < ([1, 2, 3] : List Nat).length) ∧
      (decryptMessage [1, 2, 3] (encryptMessage [1, 2, 3] 2 [250, 7])).2 = [250, 7] :=
  ⟨⟨by decide, by decide, by decide, by decide⟩,
    variantA_roundtrip [1, 2, 3] 2 [250, 7] (by decide) (by decide) (by decide) (by decide)⟩

/-- C4: the concrete Variant A key-derivation scenario.  With
`encryptionKeys[0..3] = [1,2,3,4]` and server words `[5,6,7,8]`,
`processServerKeys` derives `primarySeed = 1 ^ 2 = 3`, the auth outputs
`[416, 67, 419, 77]` (stored as `encryptionKeys[4..7]` and returned as
the reply buffer), and `solvedSecret = 419 ^ 2 = 417`. -/
theorem processServerKeys_concrete_scenario :
    processServerKeys [1, 2, 3, 4, 0, 0, 0, 0] [5, 6, 7, 8] =
      { primarySeed := 3
        authBuffer := [416, 67, 419, 77]
        newEncryptionKeys := [1, 2, 3, 4, 416, 67, 419, 77]
        solvedSecret := 417 } := by
  rfl

/-- C5: the generator of `Lcg64Bit` is deterministic - its `i`-th output
under a fixed modulus is the pure function `lcgNthOutput` of the call
count alone, whatever the total number of calls made, hence identical
across runs and instances. -/
theorem lcg64Bit_pure_function_of_call_count (modulo n i : Nat) (h : i < n) :
    (lcg64BitOutputs modulo n).getD i 0 = lcgNthOutput modulo i := by
  have hrec := lcgRunOutputs_getD modulo n 0 i h
  simpa [lcg64BitOutputs, lcgNthOutput, lcgStateAfter, Nat.zero_add] using hrec

/-- Witness for C5: the second of three outputs at modulus 32. -/
theorem lcg64Bit_pure_function_of_call_count_witness :
    1 < 3 ∧ (lcg64BitOutputs 32 3).getD 1 0 = lcgNthOutput 32 1 :=
  ⟨by decide, lcg64Bit_pure_function_of_call_count 32 3 1 (by decide)⟩

/-- C6: for every raw Unix-seconds value and every pair of 32-bit random
words, the Variant B handshake packet and `encryptionKey` computed by
`first` coincide with the claim's formulas (real-number division
truncated to 32 bits by the XOR, timestamp clamped with `INT32_MIN` on
overflow, `encryptionKey = K1 ^ K0`). -/
theorem tricksplitFirst_matches_spec (t : ℚ) (K0 K1 : Nat) :
    tricksplitFirst t K0 K1 = tricksplitFirstClaim t K0 K1 := by
  unfold tricksplitFirst tricksplitFirstClaim tsGenerateRandomSeed
  simp [Nat.xor_assoc]

/-- C10: `decryptMessage` mutates its input in place.  For every key
table and nonempty buffer, the final contents of the caller's buffer keep
byte 0 (the index byte) and replace bytes 1 onward with the decrypted
plaintext of the receive-path keystream, while the returned buffer is the
copy `slice(1)` of exactly those decrypted bytes. -/
theorem decryptMessage_in_place_frame (keys : List Nat) (b0 : Nat) (rest : List Nat) :
    (decryptMessage keys (b0 :: rest)).1 = b0 :: decryptStream keys b0 rest ∧
      (decryptMessage keys (b0 :: rest)).2 = ((decryptMessage keys (b0 :: rest)).1).drop 1 := by
  rw [decryptMessage_spec]
  exact ⟨rfl, rfl⟩

theorem exec67_deref (o : VMOracle) (st : VMState) (key recv : JSVal) (rest : List JSVal) :
    exec67 true o st key recv rest = exec67 false o st key recv rest ∨
      ∃ e, exec67 true o st key recv rest = .halt (.threw e st.token) := by
  cases hc : jsToStringVal o st.heap (vmFuel st) key with
  | error e =>
      cases recv
      case nullV => exact Or.inr ⟨.typeErr, rfl⟩
      case undef => exact Or.inr ⟨.typeErr, rfl⟩
      all_goals exact Or.inr ⟨e, by simp [exec67, orThrow, hc]⟩
  | ok u =>
      cases recv
      case nullV => exact Or.inr ⟨.typeErr, rfl⟩
      case undef => exact Or.inr ⟨.typeErr, rfl⟩
      all_goals exact Or.inl (by simp [exec67, orThrow, hc])

theorem execOp_deref (o : VMOracle) (st : VMState) (ib : Option Nat) :
    execOp true o st ib = execOp false o st ib ∨
      ∃ e, execOp true o st ib = .halt (.threw e st.token) := by
  match ib with
  | none => exact Or.inl rfl
  | some instr =>
      by_cases h67 : instr = 67
      · subst h67
        exact exec67_deref o st (vmPop st.stack).1 (vmPop (vmPop st.stack).2).1
          (vmPop (vmPop st.stack).2).2
      · refine Or.inl ?_
        simp only [execOp, if_neg h67]

theorem stepOnce_deref (o : VMOracle) (st : VMState) :
    stepOnce true o st = stepOnce false o st ∨
      ∃ e, stepOnce true o st = .halt (.threw e st.token) := by
  unfold stepOnce
  cases hls : jsLessVal o st.heap (vmFuel st) st.cursor (.num (.rat st.bytecode.length)) with
  | error e => exact Or.inl rfl
  | ok cond =>
      cases cond with
      | false => exact Or.inl rfl
      | true =>
          cases hnum : jsToNumberVal o st.heap (vmFuel st) st.cursor with
          | error e => exact Or.inl rfl
          | ok n =>
              exact execOp_deref o
                { st with cursor := .num (jsNumAdd n (.rat 1)) }
                (byteAt st.bytecode n)

theorem vmRun_ret_agree (o : VMOracle) :
    ∀ (fuel : Nat) (st : VMState) (v : JSVal) (tok : List (List Nat × JSVal)),
      vmRun true o fuel st = some (.ret v tok) →
      vmRun false o fuel st = some (.ret v tok) := by
  intro fuel
  induction fuel with
  | zero => intro st v tok h; simp [vmRun] at h
  | succ fuel ih =>
      intro st v tok h
      rw [vmRun] at h ⊢
      rcases stepOnce_deref o st with heq | ⟨e, herr⟩
      · rw [heq] at h
        cases hs : stepOnce false o st with
        | next st2 =>
            rw [hs] at h
            exact ih st2 v tok h
        | halt r =>
            rw [hs] at h
            exact h
        | spin =>
            rw [hs] at h
            simp at h
      · rw [herr] at h
        simp at h

/-- C9 counterexample: on the bytecode [96, 67, 80] (push 0; opcode 67
with key 0 and an undefined receiver popped from the empty stack; return)
the tricksplit interpreter throws a TypeError through its discarded
member access, while the senpa interpreter pushes 0 and returns 0: the
two `processVMBytecode` implementations are not equivalent. -/
theorem processVMBytecode_not_equivalent :
    tricksplitProcessVMBytecode trivialOracle 5 [96, 67, 80] [] =
        some (.threw .typeErr []) ∧
      senpaProcessVMBytecode trivialOracle 5 [96, 67, 80] [] =
        some (.ret (.num (.rat 0)) []) ∧
      tricksplitProcessVMBytecode trivialOracle 5 [96, 67, 80] [] ≠
        senpaProcessVMBytecode trivialOracle 5 [96, 67, 80] [] := by
  refine ⟨by decide, by decide, by decide⟩

/-- C9 amended: the two interpreters agree whenever the tricksplit one
returns normally.  For every oracle (host behaviour of `eval`), fuel,
bytecode and initial token-carrier state, if
`TricksplitWasmInstance.processVMBytecode` returns a value with some
final token state, `SenpaWasmInstance.processVMBytecode` returns the
same value with the same token state; the two can differ only where the
tricksplit interpreter's opcode 67 throws through its discarded member
access (undefined or null receiver, or a failing key stringification),
as on the bytecode [96, 67, 80]. -/
theorem tricksplit_senpa_agree_on_return (o : VMOracle) (fuel : Nat)
    (bc : List Nat) (token0 : List (List Nat × JSVal)) (v : JSVal)
    (tok : List (List Nat × JSVal))
    (h : tricksplitProcessVMBytecode o fuel bc token0 = some (.ret v tok)) :
    senpaProcessVMBytecode o fuel bc token0 = some (.ret v tok) :=
  vmRun_ret_agree o fuel (initVMState bc token0) v tok h

/-- Witness for the amended C9 on the trivial-halt bytecode [96, 80]. -/
theorem tricksplit_senpa_agree_on_return_witness :
    tricksplitProcessVMBytecode trivialOracle 2 [96, 80] [] =
        some (.ret (.num (.rat 0)) []) ∧
      senpaProcessVMBytecode trivialOracle 2 [96, 80] [] =
        some (.ret (.num (.rat 0)) []) :=
  ⟨by decide,
    tricksplit_senpa_agree_on_return trivialOracle 2 [96, 80] [] (.num (.rat 0)) []
      (by decide)⟩

set_option maxRecDepth 8000 in
/-- C7: opcode values outside the instruction table are no-ops.  For
every such value `v`, executing it leaves the whole interpreter state
(stack, auxiliary store, heap, token carrier) unchanged with the cursor
already advanced past the byte - exactly as if the byte were skipped -
and the bytecode [v, 96, 80] returns 0 without raising an error, in both
interpreter variants. -/
theorem unknown_opcode_noop (deref67 : Bool) (o : VMOracle) (v : Nat)
    (hv : v ∉ opcodeTable) (token0 : List (List Nat × JSVal)) :
    (∀ st : VMState, execOp deref67 o st (some v) = .next st) ∧
      vmRun deref67 o 3 (initVMState [v, 96, 80] token0) =
        some (.ret (.num (.rat 0)) token0) := by
  simp only [opcodeTable, List.mem_cons, List.not_mem_nil, or_false, not_or] at hv
  obtain ⟨h0, h2, h3, h4, h5, h16, h17, h18, h19, h20, h21, h22, h23, h32,
    h64, h65, h66, h67, h68, h48, h49, h132, h133, h96, h80⟩ := hv
  have hexec : ∀ st : VMState, execOp deref67 o st (some v) = .next st := by
    intro st
    simp only [execOp, if_neg h0, if_neg h2, if_neg h3, if_neg h4, if_neg h5,
      if_neg h16, if_neg h17, if_neg h18, if_neg h19, if_neg h20, if_neg h21,
      if_neg h22, if_neg h23, if_neg h32, if_neg h64, if_neg h65, if_neg h66,
      if_neg h67, if_neg h68, if_neg h48, if_neg h49, if_neg h132, if_neg h133,
      if_neg h96, if_neg h80]
  refine ⟨hexec, ?_⟩
  have h1 : stepOnce deref67 o (initVMState [v, 96, 80] token0) =
      execOp deref67 o
        { bytecode := [v, 96, 80], cursor := .num (.rat 1), stack := [],
          backup := [], heap := [], token := token0 } (some v) := rfl
  rw [vmRun, h1, hexec]
  rfl

/-- Witness for C7 at the unknown opcode 1. -/
theorem unknown_opcode_noop_witness :
    (1 : Nat) ∉ opcodeTable ∧
      ((∀ st : VMState, execOp false trivialOracle st (some 1) = .next st) ∧
        vmRun false trivialOracle 3 (initVMState [1, 96, 80] []) =
          some (.ret (.num (.rat 0)) [])) :=
  ⟨by decide, unknown_opcode_noop false trivialOracle 1 (by decide) []⟩

/-- C8: the bytecode [132, 0x01, 0x00, 0x00, 0x00, 80] returns 1: opcode
132 reads its four inline bytes as the little-endian 32-bit integer 1,
pushes it and advances the cursor past them, and opcode 80 pops and
returns it. -/
theorem vm_literal_push_return :
    senpaProcessVMBytecode trivialOracle 3 [132, 1, 0, 0, 0, 80] [] =
      some (.ret (.num (.rat 1)) []) := by decide
